import Mathlib

/-!
Shallow embedding of the iot-log-parser repository (src/src/parser/parser.rs and
src/src/proto.rs) in Lean 4, together with theorems settling the specification
claims. Strings are modelled as lists of characters; the nom combinators used by
the source (tag, digit1, space1, take_until1, not_line_ending, newline,
separated_list1, many0, alt, tuple, separated_pair) are modelled over
`List Char`. Rust's `IResult` is modelled by `PRes`, with a third constructor
`panic` for process aborts (from `unwrap`), so that a hard grammar failure, a
successful parse and an abort stay distinguishable.
-/

namespace IotLog

/-- Result of a fallible parsing step: `ok` carries the remaining input and the
value, `err` is a nom parse error, `panic` is a process abort (Rust `unwrap`
on a failed conversion). -/
inductive PRes (α : Type) where
  | ok : α → PRes α
  | err : PRes α
  | panic : PRes α
deriving DecidableEq, Repr

/-- Model of the generated protobuf struct `ChannelInfo` (fields as assigned in
`parse_log` and `create_iot_message`). -/
structure ChannelInfo where
  client_ip : List Char
  client_port : Nat
  server_ip : List Char
  server_port : Nat
  protocol : Option (List Char)
deriving DecidableEq, Repr

/-- Model of the generated protobuf struct `IotMessage`. -/
structure IotMessage where
  channel : ChannelInfo
  message_type : Option (List Char)
  message : List Nat
  server_time : Option Int
deriving DecidableEq, Repr

/-- Rust struct `IpPortPair` from parser.rs. -/
structure IpPortPair where
  ip : List Char
  port : Nat
deriving DecidableEq, Repr

/-- Rust struct `NetworkInfo` from parser.rs. -/
structure NetworkInfo where
  client_ip : List Char
  client_port : Nat
  server_ip : List Char
  server_port : Nat
  protocol : Option (List Char)
deriving DecidableEq, Repr

/-- Convenience: the character list of a string literal. -/
def str (s : String) : List Char := s.toList

/-! ## Models of the nom combinators used by the source -/

/-- nom `tag t`: succeeds when `t` is a literal prefix of the input. -/
def tagP (t : List Char) (input : List Char) : PRes (List Char × List Char) :=
  match t, input with
  | [], i => .ok (i, [])
  | _ :: _, [] => .err
  | c :: t2, d :: i2 =>
      if c = d then
        match tagP t2 i2 with
        | .ok (r, s) => .ok (r, c :: s)
        | .err => .err
        | .panic => .panic
      else .err

/-- nom `digit1`: one or more ASCII decimal digits. -/
def digit1 (input : List Char) : PRes (List Char × List Char) :=
  let d := input.takeWhile Char.isDigit
  if d.isEmpty then .err else .ok (input.dropWhile Char.isDigit, d)

/-- Space or tab, the character class of nom `space1`. -/
def isSpaceTab (c : Char) : Bool := c = ' ' || c = '\t'

/-- nom `space1`: one or more spaces or tabs. -/
def space1 (input : List Char) : PRes (List Char × List Char) :=
  let d := input.takeWhile isSpaceTab
  if d.isEmpty then .err else .ok (input.dropWhile isSpaceTab, d)

/-- Helper for `take_until1 ":"`: splits the input at the first colon, `none`
when the input holds no colon. -/
def splitAtColon : List Char → Option (List Char × List Char)
  | [] => none
  | c :: rest =>
      if c = ':' then some ([], c :: rest)
      else
        match splitAtColon rest with
        | some (s, r) => some (c :: s, r)
        | none => none

/-- nom `take_until1 ":"`: consumes up to (not including) the first colon,
failing when there is no colon or when the consumed run would be empty. -/
def takeUntil1Colon (input : List Char) : PRes (List Char × List Char) :=
  match splitAtColon input with
  | some ([], _) => .err
  | some (s, r) => .ok (r, s)
  | none => .err

/-- nom `not_line_ending` (complete): consumes characters up to an optional
line ending; a carriage return not followed by a newline is an error. -/
def notLineEnding : List Char → PRes (List Char × List Char)
  | [] => .ok ([], [])
  | c :: rest =>
      if c = '\n' then .ok (c :: rest, [])
      else if c = '\r' then
        match rest with
        | d :: _ => if d = '\n' then .ok (c :: rest, []) else .err
        | [] => .err
      else
        match notLineEnding rest with
        | .ok (r, s) => .ok (r, c :: s)
        | .err => .err
        | .panic => .panic

/-- nom `many0 (newline)`: consumes zero or more newline characters. -/
def many0Newline (input : List Char) : List Char × List Char :=
  (input.dropWhile (fun c => c = '\n'), input.takeWhile (fun c => c = '\n'))

/-- Loop of nom `separated_list1 (tag sep) digit1` after the first element:
repeatedly consume the separator followed by a digit run, stopping (and
leaving the separator unconsumed) as soon as either fails. Fuelled to stay
structurally recursive; the fuel used below always dominates the input length. -/
def sepLoop (sep : Char) : Nat → List Char → List Char × List (List Char)
  | 0, rest => (rest, [])
  | _ + 1, [] => ([], [])
  | fuel + 1, c :: rest2 =>
      if c = sep then
        match digit1 rest2 with
        | .ok (rest3, d) =>
            let p := sepLoop sep fuel rest3
            (p.1, d :: p.2)
        | _ => (c :: rest2, [])
      else (c :: rest2, [])

/-- nom `separated_list1 (tag sep) digit1`: one or more digit runs separated by
`sep`. -/
def sepList1Digit (sep : Char) (input : List Char) :
    PRes (List Char × List (List Char)) :=
  match digit1 input with
  | .ok (rest, d) =>
      let p := sepLoop sep input.length rest
      .ok (p.1, d :: p.2)
  | .err => .err
  | .panic => .panic

/-! ## Model of external conversions: hex decoding, UTF-8, calendar -/

/-- Value of a hex digit, `none` for a non-hex character (hex crate). -/
def hexVal (c : Char) : Option Nat :=
  if '0' ≤ c ∧ c ≤ '9' then some (c.toNat - 48)
  else if 'a' ≤ c ∧ c ≤ 'f' then some (c.toNat - 87)
  else if 'A' ≤ c ∧ c ≤ 'F' then some (c.toNat - 55)
  else none

/-- Model of `hex::decode`: an even-length string of hex digits decodes to the
corresponding bytes; odd length or a non-hex character fails. -/
def hexDecode : List Char → Option (List Nat)
  | [] => some []
  | [_] => none
  | a :: b :: rest =>
      match hexVal a, hexVal b, hexDecode rest with
      | some x, some y, some bs => some ((16 * x + y) :: bs)
      | _, _, _ => none

/-- UTF-8 bytes of one character (Rust `String::into_bytes`). -/
def utf8Bytes (c : Char) : List Nat :=
  let n := c.toNat
  if n < 0x80 then [n]
  else if n < 0x800 then
    [0xC0 + n / 0x40, 0x80 + n % 0x40]
  else if n < 0x10000 then
    [0xE0 + n / 0x1000, 0x80 + n / 0x40 % 0x40, 0x80 + n % 0x40]
  else
    [0xF0 + n / 0x40000, 0x80 + n / 0x1000 % 0x40, 0x80 + n / 0x40 % 0x40,
     0x80 + n % 0x40]

/-- UTF-8 bytes of a character list (Rust `str::to_string().into_bytes()`). -/
def strBytes (s : List Char) : List Nat := (s.map utf8Bytes).flatten

/-- Numeric value of a decimal digit run (Rust `str::parse` on a digit run). -/
def natOfDigits (ds : List Char) : Nat :=
  ds.foldl (fun a c => 10 * a + (c.toNat - 48)) 0

/-- Whether a year is a Gregorian leap year. -/
def isLeapYear (y : Nat) : Bool :=
  (y % 4 = 0 && y % 100 ≠ 0) || y % 400 = 0

/-- Days in a month of a given year. -/
def daysInMonth (y m : Nat) : Nat :=
  if m = 2 then (if isLeapYear y then 29 else 28)
  else if m = 4 ∨ m = 6 ∨ m = 9 ∨ m = 11 then 30
  else 31

/-- Days from the civil epoch 1970-01-01 to year `y`, month `m`, day `d`
(proleptic Gregorian calendar, the standard days-from-civil computation). -/
def daysFromCivil (y m d : Int) : Int :=
  let y2 : Int := if m ≤ 2 then y - 1 else y
  let era : Int := Int.fdiv y2 400
  let yoe : Int := y2 - era * 400
  let mp : Int := if m > 2 then m - 3 else m + 9
  let doy : Int := (153 * mp + 2) / 5 + d - 1
  let doe : Int := yoe * 365 + yoe / 4 - yoe / 100 + doy
  era * 146097 + doe - 719468

/-- Modelled from the spec: the external calendar-to-epoch conversion
(`dateparser::parse_with_timezone` with a fixed zero UTC offset, a crate not in
src/). Per the spec the token is reassembled into canonical
`YYYY-MM-DD HH:MM:SS.fff` shape and handed to a calendar-to-epoch conversion
using a fixed zero UTC offset; the conversion fails on a token not of that
shape or with out-of-range calendar fields, and otherwise yields the UTC epoch
milliseconds, the fractional digits scaled to nanoseconds (at most nine
digits). -/
def parseWithTimezoneUtc (s : List Char) : Option Int :=
  match sepList1Digit '-' s with
  | .ok (r1, dateGroups) =>
      match dateGroups with
      | [ys, ms, ds] =>
          match space1 r1 with
          | .ok (r2, _) =>
              match sepList1Digit ':' r2 with
              | .ok (r3, timeGroups) =>
                  match timeGroups with
                  | [hs, mins, secs] =>
                      match tagP (str ".") r3 with
                      | .ok (r4, _) =>
                          match digit1 r4 with
                          | .ok (r5, frac) =>
                              if r5 = [] ∧ frac.length ≤ 9 then
                                let y := natOfDigits ys
                                let mo := natOfDigits ms
                                let d := natOfDigits ds
                                let h := natOfDigits hs
                                let mi := natOfDigits mins
                                let sec := natOfDigits secs
                                let nanos :=
                                  natOfDigits frac * 10 ^ (9 - frac.length)
                                if 1 ≤ mo ∧ mo ≤ 12 ∧ 1 ≤ d ∧
                                    d ≤ daysInMonth y mo ∧ h < 24 ∧
                                    mi < 60 ∧ sec < 60 then
                                  some ((daysFromCivil y mo d * 86400 +
                                    h * 3600 + mi * 60 + sec) * 1000 +
                                    (nanos : Int) / 1000000)
                                else none
                              else none
                          | _ => none
                      | _ => none
                  | _ => none
              | _ => none
          | _ => none
      | _ => none
  | _ => none

/-! ## The parser functions of parser.rs -/

/-- Rust `str_as_unix_time`: epoch milliseconds of the token shifted by minus
eight hours, or the sentinel 0 when the conversion fails. -/
def str_as_unix_time (server_time : List Char) : Int :=
  match parseWithTimezoneUtc server_time with
  | some ms => ms + (-8 * 3600 * 1000)
  | none => 0

/-- Rust `parse_server_time`: dash-separated digit runs, whitespace,
colon-separated digit runs, a dot, a digit run; the pieces are reassembled and
converted with `str_as_unix_time`. -/
def parse_server_time (input : List Char) : PRes (List Char × Int) :=
  match sepList1Digit '-' input with
  | .ok (i1, date) =>
      match space1 i1 with
      | .ok (i2, _) =>
          match sepList1Digit ':' i2 with
          | .ok (i3, time) =>
              match tagP (str ".") i3 with
              | .ok (i4, _) =>
                  match digit1 i4 with
                  | .ok (i5, micro) =>
                      let datetime :=
                        (date.intersperse (str "-")).flatten ++ str " " ++
                        (time.intersperse (str ":")).flatten ++ str "." ++ micro
                      .ok (i5, str_as_unix_time datetime)
                  | .err => .err
                  | .panic => .panic
              | .err => .err
              | .panic => .panic
          | .err => .err
          | .panic => .panic
      | .err => .err
      | .panic => .panic
  | .err => .err
  | .panic => .panic

/-- Rust `parse_ip_or_domain`: `take_until1 ":"`. -/
def parse_ip_or_domain (input : List Char) : PRes (List Char × List Char) :=
  takeUntil1Colon input

/-- Rust `parse_port`: a digit run, kept as a string. -/
def parse_port (input : List Char) : PRes (List Char × List Char) :=
  digit1 input

/-- Rust `parse_ip_port_pair`: host, colon, digit run, then
`port.parse::<u32>().unwrap()` — the unwrap aborts the process when the digit
run exceeds the unsigned 32-bit range, modelled by `panic`. -/
def parse_ip_port_pair (input : List Char) : PRes (List Char × IpPortPair) :=
  match parse_ip_or_domain input with
  | .ok (i1, ip) =>
      match tagP (str ":") i1 with
      | .ok (i2, _) =>
          match parse_port i2 with
          | .ok (i3, port) =>
              if natOfDigits port < 2 ^ 32 then
                .ok (i3, ⟨ip, natOfDigits port⟩)
              else .panic
          | .err => .err
          | .panic => .panic
      | .err => .err
      | .panic => .panic
  | .err => .err
  | .panic => .panic

/-- Rust `parse_iot_log`: bracketed pair of address:port pairs separated by a
hash; the protocol is classified from the client port. -/
def parse_iot_log (input : List Char) : PRes (List Char × NetworkInfo) :=
  match tagP (str "[") input with
  | .ok (i1, _) =>
      match parse_ip_port_pair i1 with
      | .ok (i2, client) =>
          match tagP (str "#") i2 with
          | .ok (i3, _) =>
              match parse_ip_port_pair i3 with
              | .ok (i4, server) =>
                  match tagP (str "]") i4 with
                  | .ok (i5, _) =>
                      let protocol :=
                        match client.port with
                        | 0 => str "mqtt"
                        | _ => str "iec104"
                      .ok (i5, ⟨client.ip, client.port, server.ip,
                        server.port, some protocol⟩)
                  | .err => .err
                  | .panic => .panic
              | .err => .err
              | .panic => .panic
          | .err => .err
          | .panic => .panic
      | .err => .err
      | .panic => .panic
  | .err => .err
  | .panic => .panic

/-- Rust `parse_network_info`: delegates to `parse_iot_log`. -/
def parse_network_info (input : List Char) : PRes (List Char × NetworkInfo) :=
  parse_iot_log input

/-- Rust `parse_payload`: a `D:` or `R:` prefix followed by the rest of the
line. -/
def parse_payload (input : List Char) : PRes (List Char × List Char) :=
  match tagP (str "D:") input with
  | .ok (i1, _) => notLineEnding i1
  | _ =>
      match tagP (str "R:") input with
      | .ok (i1, _) => notLineEnding i1
      | .err => .err
      | .panic => .panic

/-- Rust `parse_log`: timestamp, whitespace, network tuple, whitespace,
payload, trailing newlines; hex-decodes the payload for a nonzero client port
(yielding no envelope when decoding fails) and keeps it verbatim for client
port zero. -/
def parse_log (input : List Char) : PRes (List Char × Option IotMessage) :=
  match parse_server_time input with
  | .ok (i1, ts) =>
      match space1 i1 with
      | .ok (i2, _) =>
          match parse_network_info i2 with
          | .ok (i3, network_info) =>
              match space1 i3 with
              | .ok (i4, _) =>
                  match parse_payload i4 with
                  | .ok (i5, json_str) =>
                      let rest := (many0Newline i5).1
                      let channel_info : ChannelInfo :=
                        ⟨network_info.client_ip, network_info.client_port,
                         network_info.server_ip, network_info.server_port,
                         network_info.protocol⟩
                      let message_type :=
                        match network_info.client_port with
                        | 0 => str "mqtt"
                        | _ => str "iec104"
                      if network_info.client_port ≠ 0 then
                        match hexDecode json_str with
                        | some message =>
                            .ok (rest, some ⟨channel_info, some message_type,
                              message, some ts⟩)
                        | none => .ok (rest, none)
                      else
                        .ok (rest, some ⟨channel_info, some message_type,
                          strBytes json_str, some ts⟩)
                  | .err => .err
                  | .panic => .panic
              | .err => .err
              | .panic => .panic
          | .err => .err
          | .panic => .panic
      | .err => .err
      | .panic => .panic
  | .err => .err
  | .panic => .panic

/-- The protocol classification rule: client port zero is mqtt, anything else
iec104. -/
def classify (port : Nat) : List Char :=
  match port with
  | 0 => str "mqtt"
  | _ => str "iec104"

/-- Concatenation of groups with a single separator character between
consecutive groups (the written form of a one-or-more separated list). -/
def sepJoin (sep : Char) : List (List Char) → List Char
  | [] => []
  | g :: gs => g ++ (gs.map (fun g2 => sep :: g2)).flatten

/-- Spec-side description of the line grammar, written from the spec's words
for comparison against `parse_log`: the line decomposes, in this exact fixed
order, into a timestamp token (dash-separated digit runs, whitespace,
colon-separated digit runs, a dot, a digit run), one-or-more whitespace, the
bracketed network tuple, one-or-more whitespace, the payload (a `D:` or `R:`
prefix and a line-break-free remainder), and zero-or-more trailing newlines
before the unconsumed rest. The claim's stronger requirement of exactly three
date groups and exactly three time groups is stated separately and refuted. -/
def LineShape (input rest : List Char) : Prop :=
  ∃ (dateGroups timeGroups : List (List Char))
    (wsA wsB wsC frac chost cportD shost sportD pfx rem nls : List Char),
    dateGroups ≠ [] ∧ (∀ g ∈ dateGroups, g ≠ [] ∧ ∀ c ∈ g, c.isDigit) ∧
    timeGroups ≠ [] ∧ (∀ g ∈ timeGroups, g ≠ [] ∧ ∀ c ∈ g, c.isDigit) ∧
    wsA ≠ [] ∧ (∀ c ∈ wsA, isSpaceTab c) ∧
    wsB ≠ [] ∧ (∀ c ∈ wsB, isSpaceTab c) ∧
    wsC ≠ [] ∧ (∀ c ∈ wsC, isSpaceTab c) ∧
    frac ≠ [] ∧ (∀ c ∈ frac, c.isDigit) ∧
    chost ≠ [] ∧ (∀ c ∈ chost, c ≠ ':') ∧
    cportD ≠ [] ∧ (∀ c ∈ cportD, c.isDigit) ∧
    shost ≠ [] ∧ (∀ c ∈ shost, c ≠ ':') ∧
    sportD ≠ [] ∧ (∀ c ∈ sportD, c.isDigit) ∧
    (pfx = str "D:" ∨ pfx = str "R:") ∧
    (∀ c ∈ rem, c ≠ '\n' ∧ c ≠ '\r') ∧
    (∀ c ∈ nls, c = '\n') ∧
    input = sepJoin '-' dateGroups ++ wsA ++ sepJoin ':' timeGroups ++
      str "." ++ frac ++ wsB ++ str "[" ++ chost ++ str ":" ++ cportD ++
      str "#" ++ shost ++ str ":" ++ sportD ++ str "]" ++ wsC ++ pfx ++
      rem ++ nls ++ rest

/-! ## Helper lemmas -/

/-- Inversion of a successful literal match: the consumed run is the literal
and the input is the literal followed by the rest. -/
lemma tagP_ok (t : List Char) : ∀ i r s, tagP t i = .ok (r, s) →
    s = t ∧ i = t ++ r := by
  induction t with
  | nil =>
      intro i r s h
      unfold tagP at h
      injection h with h
      injection h with h1 h2
      exact ⟨h2.symm, by rw [← h1]; rfl⟩
  | cons c t2 ih =>
      intro i r s h
      cases i with
      | nil => simp only [tagP] at h; exact PRes.noConfusion h
      | cons d i2 =>
          simp only [tagP] at h
          by_cases hc : c = d
          · rw [if_pos hc] at h
            cases htp : tagP t2 i2 with
            | err => simp only [htp] at h; exact PRes.noConfusion h
            | panic => simp only [htp] at h; exact PRes.noConfusion h
            | ok q =>
                obtain ⟨r2, s2⟩ := q
                simp only [htp] at h
                injection h with h
                injection h with h1 h2
                obtain ⟨hs2, hi2⟩ := ih i2 r2 s2 htp
                subst hs2
                refine ⟨h2.symm, ?_⟩
                rw [← h1, hi2, hc]
                rfl
          · rw [if_neg hc] at h
            exact PRes.noConfusion h

/-- Inversion of a successful `digit1`: a nonempty all-digit run was consumed
from the front. -/
lemma digit1_ok (i r d : List Char) (h : digit1 i = .ok (r, d)) :
    d ≠ [] ∧ (∀ c ∈ d, c.isDigit) ∧ i = d ++ r := by
  unfold digit1 at h
  by_cases he : (i.takeWhile Char.isDigit).isEmpty
  · rw [if_pos he] at h
    exact PRes.noConfusion h
  · rw [if_neg he] at h
    injection h with h
    injection h with h1 h2
    subst h2
    refine ⟨by simpa [List.isEmpty_iff] using he,
      fun c hc => List.mem_takeWhile_imp hc, ?_⟩
    rw [← h1, List.takeWhile_append_dropWhile]

/-- Inversion of a successful `space1`: a nonempty run of spaces and tabs was
consumed from the front. -/
lemma space1_ok (i r s : List Char) (h : space1 i = .ok (r, s)) :
    s ≠ [] ∧ (∀ c ∈ s, isSpaceTab c) ∧ i = s ++ r := by
  unfold space1 at h
  by_cases he : (i.takeWhile isSpaceTab).isEmpty
  · rw [if_pos he] at h
    exact PRes.noConfusion h
  · rw [if_neg he] at h
    injection h with h
    injection h with h1 h2
    subst h2
    refine ⟨by simpa [List.isEmpty_iff] using he,
      fun c hc => List.mem_takeWhile_imp hc, ?_⟩
    rw [← h1, List.takeWhile_append_dropWhile]

/-- Splitting at the first colon decomposes the input, and the part before the
colon is colon-free. -/
lemma splitAtColon_some : ∀ i s r, splitAtColon i = some (s, r) →
    i = s ++ r ∧ ∀ c ∈ s, c ≠ ':' := by
  intro i
  induction i with
  | nil => intro s r h; exact Option.noConfusion h
  | cons c rest ih =>
      intro s r h
      simp only [splitAtColon] at h
      by_cases hc : c = ':'
      · rw [if_pos hc] at h
        injection h with h
        injection h with h1 h2
        refine ⟨by rw [← h1, ← h2]; rfl, ?_⟩
        intro x hx
        rw [← h1] at hx
        cases hx
      · rw [if_neg hc] at h
        cases hsp : splitAtColon rest with
        | none => rw [hsp] at h; exact Option.noConfusion h
        | some q =>
            obtain ⟨s2, r2⟩ := q
            rw [hsp] at h
            injection h with h
            injection h with h1 h2
            obtain ⟨hi, hcol⟩ := ih s2 r2 hsp
            refine ⟨by rw [← h1, ← h2, hi]; rfl, ?_⟩
            intro x hx
            rw [← h1] at hx
            rcases List.mem_cons.mp hx with hx1 | hx2
            · exact hx1 ▸ hc
            · exact hcol x hx2

/-- A colon-free input has no split at a colon. -/
lemma splitAtColon_none : ∀ i, (∀ c ∈ i, c ≠ ':') → splitAtColon i = none := by
  intro i
  induction i with
  | nil => intro _; rfl
  | cons c rest ih =>
      intro hmem
      simp only [splitAtColon]
      rw [if_neg (hmem c (by simp)), ih (fun x hx => hmem x (by simp [hx]))]

/-- Inversion of a successful `take_until1 ":"`: a nonempty colon-free host
run was consumed from the front. -/
lemma takeUntil1Colon_ok (i r s : List Char)
    (h : takeUntil1Colon i = .ok (r, s)) :
    s ≠ [] ∧ (∀ c ∈ s, c ≠ ':') ∧ i = s ++ r := by
  unfold takeUntil1Colon at h
  cases hsp : splitAtColon i with
  | none => simp only [hsp] at h; exact PRes.noConfusion h
  | some q =>
      obtain ⟨s0, r0⟩ := q
      simp only [hsp] at h
      cases s0 with
      | nil => exact PRes.noConfusion h
      | cons c s1 =>
          injection h with h
          injection h with h1 h2
          obtain ⟨hi, hcol⟩ := splitAtColon_some i (c :: s1) r0 hsp
          refine ⟨by rw [← h2]; simp, fun x hx => hcol x (by rw [h2]; exact hx),
            by rw [← h1, ← h2]; exact hi⟩

/-- Inversion of a successful `not_line_ending`: the consumed run is
line-break-free and is an initial segment of the input. -/
lemma notLineEnding_inv : ∀ i r s, notLineEnding i = .ok (r, s) →
    i = s ++ r ∧ ∀ c ∈ s, c ≠ '\n' ∧ c ≠ '\r' := by
  intro i
  induction i with
  | nil =>
      intro r s h
      simp only [notLineEnding] at h
      injection h with h
      injection h with h1 h2
      refine ⟨by rw [← h1, ← h2]; rfl, ?_⟩
      intro x hx
      rw [← h2] at hx
      cases hx
  | cons c rest ih =>
      intro r s h
      by_cases h1 : c = '\n'
      · subst h1
        rw [show notLineEnding ('\n' :: rest) = .ok ('\n' :: rest, []) from
          rfl] at h
        injection h with h
        injection h with hA hB
        refine ⟨by rw [← hA, ← hB]; rfl, ?_⟩
        intro x hx
        rw [← hB] at hx
        cases hx
      · by_cases h2 : c = '\r'
        · subst h2
          cases rest with
          | nil =>
              rw [show notLineEnding ['\r'] = PRes.err from rfl] at h
              exact PRes.noConfusion h
          | cons d rest2 =>
              by_cases h3 : d = '\n'
              · subst h3
                rw [show notLineEnding ('\r' :: '\n' :: rest2) =
                    .ok ('\r' :: '\n' :: rest2, []) from rfl] at h
                injection h with h
                injection h with hA hB
                refine ⟨by rw [← hA, ← hB]; rfl, ?_⟩
                intro x hx
                rw [← hB] at hx
                cases hx
              · have hval : notLineEnding ('\r' :: d :: rest2) = PRes.err := by
                  simp only [notLineEnding]
                  simp [h3]
                rw [hval] at h
                exact PRes.noConfusion h
        · have hval : notLineEnding (c :: rest) =
              (match notLineEnding rest with
               | .ok (r2, s2) => .ok (r2, c :: s2)
               | .err => .err
               | .panic => PRes.panic) := by
            simp only [notLineEnding]
            rw [if_neg h1, if_neg h2]
          rw [hval] at h
          cases hnle : notLineEnding rest with
          | err => simp only [hnle] at h; exact PRes.noConfusion h
          | panic => simp only [hnle] at h; exact PRes.noConfusion h
          | ok q =>
              obtain ⟨r2, s2⟩ := q
              simp only [hnle] at h
              injection h with h
              injection h with hA hB
              obtain ⟨hi, hmem⟩ := ih r2 s2 hnle
              refine ⟨by rw [← hA, ← hB, hi]; rfl, ?_⟩
              intro x hx
              rw [← hB] at hx
              rcases List.mem_cons.mp hx with hx1 | hx2
              · exact ⟨hx1 ▸ h1, hx1 ▸ h2⟩
              · exact hmem x hx2

/-- Decomposition of `many0 (newline)`: the consumed run is all newlines and
is an initial segment of the input. -/
lemma many0Newline_inv (i r nls : List Char) (h : many0Newline i = (r, nls)) :
    i = nls ++ r ∧ ∀ c ∈ nls, c = '\n' := by
  unfold many0Newline at h
  injection h with h1 h2
  refine ⟨by rw [← h1, ← h2, List.takeWhile_append_dropWhile], ?_⟩
  intro x hx
  rw [← h2] at hx
  have hp := List.mem_takeWhile_imp hx
  simpa using hp

/-- Inversion of the separated-list continuation loop: the input splits into
separator-prefixed nonempty digit groups followed by the rest. -/
lemma sepLoop_inv (sep : Char) : ∀ fuel rest r gs,
    sepLoop sep fuel rest = (r, gs) →
    rest = (gs.map (fun g => sep :: g)).flatten ++ r ∧
    ∀ g ∈ gs, g ≠ [] ∧ ∀ c ∈ g, c.isDigit := by
  intro fuel
  induction fuel with
  | zero =>
      intro rest r gs h
      injection h with h1 h2
      refine ⟨by rw [← h1, ← h2]; rfl, ?_⟩
      intro g hg
      rw [← h2] at hg
      cases hg
  | succ fuel ih =>
      intro rest r gs h
      cases rest with
      | nil =>
          injection h with h1 h2
          refine ⟨by rw [← h1, ← h2]; rfl, ?_⟩
          intro g hg
          rw [← h2] at hg
          cases hg
      | cons c rest2 =>
          simp only [sepLoop] at h
          by_cases hc : c = sep
          · rw [if_pos hc] at h
            cases hd : digit1 rest2 with
            | ok q =>
                obtain ⟨rest3, d⟩ := q
                simp only [hd] at h
                cases hsl : sepLoop sep fuel rest3 with
                | mk r0 gs0 =>
                rw [hsl] at h
                injection h with h1 h2
                obtain ⟨e1, e2⟩ := ih rest3 r0 gs0 hsl
                obtain ⟨hdne, hddig, hdeq⟩ := digit1_ok rest2 rest3 d hd
                constructor
                · rw [← h1, ← h2, hc, hdeq, e1]
                  simp [List.append_assoc]
                · intro g hg
                  rw [← h2] at hg
                  rcases List.mem_cons.mp hg with hg1 | hg2
                  · exact hg1 ▸ ⟨hdne, hddig⟩
                  · exact e2 g hg2
            | err =>
                simp only [hd] at h
                injection h with h1 h2
                refine ⟨by rw [← h1, ← h2]; rfl, ?_⟩
                intro g hg
                rw [← h2] at hg
                cases hg
            | panic =>
                simp only [hd] at h
                injection h with h1 h2
                refine ⟨by rw [← h1, ← h2]; rfl, ?_⟩
                intro g hg
                rw [← h2] at hg
                cases hg
          · rw [if_neg hc] at h
            injection h with h1 h2
            refine ⟨by rw [← h1, ← h2]; rfl, ?_⟩
            intro g hg
            rw [← h2] at hg
            cases hg

/-- Inversion of a successful `separated_list1 (tag sep) digit1`: the input
begins with one or more nonempty digit groups written with single separators
between them. -/
lemma sepList1Digit_inv (sep : Char) (i r : List Char) (gs : List (List Char))
    (h : sepList1Digit sep i = .ok (r, gs)) :
    gs ≠ [] ∧ (∀ g ∈ gs, g ≠ [] ∧ ∀ c ∈ g, c.isDigit) ∧
    i = sepJoin sep gs ++ r := by
  unfold sepList1Digit at h
  cases hd : digit1 i with
  | err => simp only [hd] at h; exact PRes.noConfusion h
  | panic => simp only [hd] at h; exact PRes.noConfusion h
  | ok q =>
      obtain ⟨rest, d⟩ := q
      simp only [hd] at h
      cases hsl : sepLoop sep i.length rest with
      | mk r0 gs0 =>
      rw [hsl] at h
      injection h with h
      injection h with h1 h2
      obtain ⟨e1, e2⟩ := sepLoop_inv sep i.length rest r0 gs0 hsl
      obtain ⟨hdne, hddig, hdeq⟩ := digit1_ok i rest d hd
      refine ⟨by rw [← h2]; simp, ?_, ?_⟩
      · intro g hg
        rw [← h2] at hg
        rcases List.mem_cons.mp hg with hg1 | hg2
        · exact hg1 ▸ ⟨hdne, hddig⟩
        · exact e2 g hg2
      · rw [← h2, ← h1]
        simp only [sepJoin]
        conv_lhs => rw [hdeq, e1]
        simp [List.append_assoc]

/-- Inversion of a successful `parse_ip_port_pair`: a nonempty colon-free
host, a colon and a nonempty digit run whose value fits in 32 bits were
consumed. -/
lemma parse_ip_port_pair_inv (i r : List Char) (p : IpPortPair)
    (h : parse_ip_port_pair i = .ok (r, p)) :
    ∃ host pd, host ≠ [] ∧ (∀ c ∈ host, c ≠ ':') ∧ pd ≠ [] ∧
      (∀ c ∈ pd, c.isDigit) ∧ natOfDigits pd < 2 ^ 32 ∧
      p = ⟨host, natOfDigits pd⟩ ∧ i = host ++ str ":" ++ pd ++ r := by
  unfold parse_ip_port_pair parse_ip_or_domain parse_port at h
  cases h1 : takeUntil1Colon i with
  | err => simp only [h1] at h; exact PRes.noConfusion h
  | panic => simp only [h1] at h; exact PRes.noConfusion h
  | ok q1 =>
  obtain ⟨i1, ip⟩ := q1
  simp only [h1] at h
  cases h2 : tagP (str ":") i1 with
  | err => simp only [h2] at h; exact PRes.noConfusion h
  | panic => simp only [h2] at h; exact PRes.noConfusion h
  | ok q2 =>
  obtain ⟨i2, cl⟩ := q2
  simp only [h2] at h
  cases h3 : digit1 i2 with
  | err => simp only [h3] at h; exact PRes.noConfusion h
  | panic => simp only [h3] at h; exact PRes.noConfusion h
  | ok q3 =>
  obtain ⟨i3, pd⟩ := q3
  simp only [h3] at h
  by_cases h4 : natOfDigits pd < 2 ^ 32
  · rw [if_pos h4] at h
    injection h with h
    injection h with hA hB
    obtain ⟨hne, hcol, hieq⟩ := takeUntil1Colon_ok i i1 ip h1
    obtain ⟨hcl, hi1⟩ := tagP_ok (str ":") i1 i2 cl h2
    obtain ⟨hpdne, hpddig, hi2⟩ := digit1_ok i2 i3 pd h3
    refine ⟨ip, pd, hne, hcol, hpdne, hpddig, h4, hB.symm, ?_⟩
    rw [hieq, hi1, hi2, ← hA]
    simp [List.append_assoc]
  · rw [if_neg h4] at h
    exact PRes.noConfusion h

/-- Inversion of a successful `parse_iot_log`: the bracketed tuple decomposes
into two host and port pairs, and the network info fields are exactly those
pieces with the classified protocol. -/
lemma parse_iot_log_inv (i r : List Char) (ni : NetworkInfo)
    (h : parse_iot_log i = .ok (r, ni)) :
    ∃ chost cpd shost spd,
      chost ≠ [] ∧ (∀ c ∈ chost, c ≠ ':') ∧ cpd ≠ [] ∧
      (∀ c ∈ cpd, c.isDigit) ∧ shost ≠ [] ∧ (∀ c ∈ shost, c ≠ ':') ∧
      spd ≠ [] ∧ (∀ c ∈ spd, c.isDigit) ∧
      natOfDigits cpd < 2 ^ 32 ∧ natOfDigits spd < 2 ^ 32 ∧
      ni = ⟨chost, natOfDigits cpd, shost, natOfDigits spd,
        some (classify (natOfDigits cpd))⟩ ∧
      i = str "[" ++ chost ++ str ":" ++ cpd ++ str "#" ++ shost ++
        str ":" ++ spd ++ str "]" ++ r := by
  unfold parse_iot_log at h
  cases h1 : tagP (str "[") i with
  | err => simp only [h1] at h; exact PRes.noConfusion h
  | panic => simp only [h1] at h; exact PRes.noConfusion h
  | ok q1 =>
  obtain ⟨i1, b1⟩ := q1
  simp only [h1] at h
  cases h2 : parse_ip_port_pair i1 with
  | err => simp only [h2] at h; exact PRes.noConfusion h
  | panic => simp only [h2] at h; exact PRes.noConfusion h
  | ok q2 =>
  obtain ⟨i2, client⟩ := q2
  simp only [h2] at h
  cases h3 : tagP (str "#") i2 with
  | err => simp only [h3] at h; exact PRes.noConfusion h
  | panic => simp only [h3] at h; exact PRes.noConfusion h
  | ok q3 =>
  obtain ⟨i3, b3⟩ := q3
  simp only [h3] at h
  cases h4 : parse_ip_port_pair i3 with
  | err => simp only [h4] at h; exact PRes.noConfusion h
  | panic => simp only [h4] at h; exact PRes.noConfusion h
  | ok q4 =>
  obtain ⟨i4, server⟩ := q4
  simp only [h4] at h
  cases h5 : tagP (str "]") i4 with
  | err => simp only [h5] at h; exact PRes.noConfusion h
  | panic => simp only [h5] at h; exact PRes.noConfusion h
  | ok q5 =>
  obtain ⟨i5, b5⟩ := q5
  simp only [h5] at h
  injection h with h
  injection h with hA hB
  obtain ⟨chost, cpd, hcne, hccol, hcpdne, hcpddig, hclt, hceq, hi1⟩ :=
    parse_ip_port_pair_inv i1 i2 client h2
  obtain ⟨shost, spd, hsne, hscol, hspdne, hspddig, hslt, hseq, hi3⟩ :=
    parse_ip_port_pair_inv i3 i4 server h4
  obtain ⟨_, hieq⟩ := tagP_ok (str "[") i i1 b1 h1
  obtain ⟨_, hi2⟩ := tagP_ok (str "#") i2 i3 b3 h3
  obtain ⟨_, hi4⟩ := tagP_ok (str "]") i4 i5 b5 h5
  refine ⟨chost, cpd, shost, spd, hcne, hccol, hcpdne, hcpddig, hsne, hscol,
    hspdne, hspddig, hclt, hslt, ?_, ?_⟩
  · rw [← hB, hceq, hseq]
    rcases client with ⟨cip, cport⟩
    injection hceq with hcip hcport
    simp only [classify]
  · rw [hieq, hi1, hi2, hi3, hi4, ← hA]
    simp [List.append_assoc]

/-- Inversion of a successful `parse_server_time`: the timestamp token
decomposes into dash-separated digit groups, whitespace, colon-separated
digit groups, a dot and a fractional digit run, and the produced value is the
conversion of the reassembled canonical token. -/
lemma parse_server_time_inv (i0 i1 : List Char) (ts : Int)
    (h : parse_server_time i0 = .ok (i1, ts)) :
    ∃ (dgs tgs : List (List Char)) (wsA frac : List Char),
      dgs ≠ [] ∧ (∀ g ∈ dgs, g ≠ [] ∧ ∀ c ∈ g, c.isDigit) ∧
      tgs ≠ [] ∧ (∀ g ∈ tgs, g ≠ [] ∧ ∀ c ∈ g, c.isDigit) ∧
      wsA ≠ [] ∧ (∀ c ∈ wsA, isSpaceTab c) ∧
      frac ≠ [] ∧ (∀ c ∈ frac, c.isDigit) ∧
      ts = str_as_unix_time ((dgs.intersperse (str "-")).flatten ++ str " " ++
        (tgs.intersperse (str ":")).flatten ++ str "." ++ frac) ∧
      i0 = sepJoin '-' dgs ++ wsA ++ sepJoin ':' tgs ++ str "." ++ frac ++
        i1 := by
  unfold parse_server_time at h
  cases h1 : sepList1Digit '-' i0 with
  | err => simp only [h1] at h; exact PRes.noConfusion h
  | panic => simp only [h1] at h; exact PRes.noConfusion h
  | ok q1 =>
  obtain ⟨j1, dgs⟩ := q1
  simp only [h1] at h
  cases h2 : space1 j1 with
  | err => simp only [h2] at h; exact PRes.noConfusion h
  | panic => simp only [h2] at h; exact PRes.noConfusion h
  | ok q2 =>
  obtain ⟨j2, wsA⟩ := q2
  simp only [h2] at h
  cases h3 : sepList1Digit ':' j2 with
  | err => simp only [h3] at h; exact PRes.noConfusion h
  | panic => simp only [h3] at h; exact PRes.noConfusion h
  | ok q3 =>
  obtain ⟨j3, tgs⟩ := q3
  simp only [h3] at h
  cases h4 : tagP (str ".") j3 with
  | err => simp only [h4] at h; exact PRes.noConfusion h
  | panic => simp only [h4] at h; exact PRes.noConfusion h
  | ok q4 =>
  obtain ⟨j4, dot⟩ := q4
  simp only [h4] at h
  cases h5 : digit1 j4 with
  | err => simp only [h5] at h; exact PRes.noConfusion h
  | panic => simp only [h5] at h; exact PRes.noConfusion h
  | ok q5 =>
  obtain ⟨j5, frac⟩ := q5
  simp only [h5] at h
  injection h with h
  injection h with hA hB
  obtain ⟨hdne, hddig, hi0⟩ := sepList1Digit_inv '-' i0 j1 dgs h1
  obtain ⟨hwne, hwmem, hj1⟩ := space1_ok j1 j2 wsA h2
  obtain ⟨htne, htdig, hj2⟩ := sepList1Digit_inv ':' j2 j3 tgs h3
  obtain ⟨_, hj3⟩ := tagP_ok (str ".") j3 j4 dot h4
  obtain ⟨hfne, hfdig, hj4⟩ := digit1_ok j4 j5 frac h5
  refine ⟨dgs, tgs, wsA, frac, hdne, hddig, htne, htdig, hwne, hwmem, hfne,
    hfdig, hB.symm, ?_⟩
  rw [hi0, hj1, hj2, hj3, hj4, ← hA]
  simp [List.append_assoc]

/-- Inversion of a successful `parse_payload`: a `D:` or `R:` prefix and a
line-break-free remainder were consumed. -/
lemma parse_payload_inv (i r rem : List Char)
    (h : parse_payload i = .ok (r, rem)) :
    ∃ pfx, (pfx = str "D:" ∨ pfx = str "R:") ∧
      (∀ c ∈ rem, c ≠ '\n' ∧ c ≠ '\r') ∧ i = pfx ++ rem ++ r := by
  unfold parse_payload at h
  cases h1 : tagP (str "D:") i with
  | ok q =>
      obtain ⟨i1, s⟩ := q
      simp only [h1] at h
      obtain ⟨hi1, hmem⟩ := notLineEnding_inv i1 r rem h
      obtain ⟨_, hieq⟩ := tagP_ok (str "D:") i i1 s h1
      exact ⟨str "D:", Or.inl rfl, hmem, by rw [hieq, hi1, List.append_assoc]⟩
  | err =>
      simp only [h1] at h
      cases h2 : tagP (str "R:") i with
      | err => simp only [h2] at h; exact PRes.noConfusion h
      | panic => simp only [h2] at h; exact PRes.noConfusion h
      | ok q =>
          obtain ⟨i1, s⟩ := q
          simp only [h2] at h
          obtain ⟨hi1, hmem⟩ := notLineEnding_inv i1 r rem h
          obtain ⟨_, hieq⟩ := tagP_ok (str "R:") i i1 s h2
          exact ⟨str "R:", Or.inr rfl, hmem,
            by rw [hieq, hi1, List.append_assoc]⟩
  | panic =>
      simp only [h1] at h
      cases h2 : tagP (str "R:") i with
      | err => simp only [h2] at h; exact PRes.noConfusion h
      | panic => simp only [h2] at h; exact PRes.noConfusion h
      | ok q =>
          obtain ⟨i1, s⟩ := q
          simp only [h2] at h
          obtain ⟨hi1, hmem⟩ := notLineEnding_inv i1 r rem h
          obtain ⟨_, hieq⟩ := tagP_ok (str "R:") i i1 s h2
          exact ⟨str "R:", Or.inr rfl, hmem,
            by rw [hieq, hi1, List.append_assoc]⟩

/-- The protocol stored while building `NetworkInfo` is exactly the
classification of the client port. -/
lemma parse_iot_log_protocol (i r : List Char) (ni : NetworkInfo)
    (h : parse_iot_log i = .ok (r, ni)) :
    ni.protocol = some (classify ni.client_port) := by
  unfold parse_iot_log at h
  repeat split at h
  all_goals first
    | exact PRes.noConfusion h
    | (cases h; simp_all [classify])

/-- A successful `parse_network_info` stores the classification of the client
port as the protocol. -/
lemma parse_network_info_protocol (i r : List Char) (ni : NetworkInfo)
    (h : parse_network_info i = .ok (r, ni)) :
    ni.protocol = some (classify ni.client_port) :=
  parse_iot_log_protocol i r ni h

/-- Forward evaluation of `parse_log` once every grammar stage has succeeded:
the result is determined by the client port and the hex decodability of the
payload remainder. -/
lemma parse_log_eq (i0 i1 i2 i3 i4 i5 sp1 sp2 rem : List Char) (ts : Int)
    (ni : NetworkInfo)
    (h1 : parse_server_time i0 = .ok (i1, ts))
    (h2 : space1 i1 = .ok (i2, sp1))
    (h3 : parse_network_info i2 = .ok (i3, ni))
    (h4 : space1 i3 = .ok (i4, sp2))
    (h5 : parse_payload i4 = .ok (i5, rem)) :
    parse_log i0 =
      if ni.client_port ≠ 0 then
        match hexDecode rem with
        | some bs =>
            .ok ((many0Newline i5).1, some ⟨⟨ni.client_ip, ni.client_port,
              ni.server_ip, ni.server_port, ni.protocol⟩,
              some (classify ni.client_port), bs, some ts⟩)
        | none => .ok ((many0Newline i5).1, none)
      else
        .ok ((many0Newline i5).1, some ⟨⟨ni.client_ip, ni.client_port,
          ni.server_ip, ni.server_port, ni.protocol⟩,
          some (classify ni.client_port), strBytes rem, some ts⟩) := by
  unfold parse_log
  simp only [h1, h2, h3, h4, h5]
  rcases ni with ⟨ci, cp, si, sp, pr⟩
  cases cp <;> rfl

/-- Inversion of a successful `parse_log`: every grammar stage succeeded in
order, and the outcome is determined by the client port and the hex
decodability of the payload remainder. -/
lemma parse_log_ok_inv (i0 rest : List Char) (out : Option IotMessage)
    (h : parse_log i0 = .ok (rest, out)) :
    ∃ (i1 i2 i3 i4 i5 sp1 sp2 rem nls : List Char) (ts : Int)
      (ni : NetworkInfo),
      parse_server_time i0 = .ok (i1, ts) ∧
      space1 i1 = .ok (i2, sp1) ∧
      parse_network_info i2 = .ok (i3, ni) ∧
      space1 i3 = .ok (i4, sp2) ∧
      parse_payload i4 = .ok (i5, rem) ∧
      many0Newline i5 = (rest, nls) ∧
      ((ni.client_port = 0 ∧
        out = some ⟨⟨ni.client_ip, ni.client_port, ni.server_ip,
          ni.server_port, ni.protocol⟩, some (classify ni.client_port),
          strBytes rem, some ts⟩) ∨
       (ni.client_port ≠ 0 ∧
        out = (hexDecode rem).map (fun bs => ⟨⟨ni.client_ip, ni.client_port,
          ni.server_ip, ni.server_port, ni.protocol⟩,
          some (classify ni.client_port), bs, some ts⟩))) := by
  have hu := h
  unfold parse_log at hu
  cases h1 : parse_server_time i0 with
  | err => simp only [h1] at hu; exact PRes.noConfusion hu
  | panic => simp only [h1] at hu; exact PRes.noConfusion hu
  | ok p1 =>
  obtain ⟨i1, ts⟩ := p1
  simp only [h1] at hu
  cases h2 : space1 i1 with
  | err => simp only [h2] at hu; exact PRes.noConfusion hu
  | panic => simp only [h2] at hu; exact PRes.noConfusion hu
  | ok p2 =>
  obtain ⟨i2, sp1⟩ := p2
  simp only [h2] at hu
  cases h3 : parse_network_info i2 with
  | err => simp only [h3] at hu; exact PRes.noConfusion hu
  | panic => simp only [h3] at hu; exact PRes.noConfusion hu
  | ok p3 =>
  obtain ⟨i3, ni⟩ := p3
  simp only [h3] at hu
  cases h4 : space1 i3 with
  | err => simp only [h4] at hu; exact PRes.noConfusion hu
  | panic => simp only [h4] at hu; exact PRes.noConfusion hu
  | ok p4 =>
  obtain ⟨i4, sp2⟩ := p4
  simp only [h4] at hu
  cases h5 : parse_payload i4 with
  | err => simp only [h5] at hu; exact PRes.noConfusion hu
  | panic => simp only [h5] at hu; exact PRes.noConfusion hu
  | ok p5 =>
  obtain ⟨i5, rem⟩ := p5
  simp only [h5] at hu
  by_cases hp : ni.client_port = 0
  · simp only [hp, ne_eq, not_true_eq_false, if_false, ite_false] at hu
    injection hu with hu
    injection hu with hu1 hu2
    refine ⟨i1, i2, i3, i4, i5, sp1, sp2, rem, (many0Newline i5).2, ts, ni,
      rfl, h2, h3, h4, h5, ?_, ?_⟩
    · rw [← hu1]
    · left
      refine ⟨hp, ?_⟩
      rw [← hu2]
      rcases ni with ⟨ci, cp, si, sp, pr⟩
      simp only at hp
      subst hp
      rfl
  · rw [if_pos hp] at hu
    cases h6 : hexDecode rem with
    | some bs =>
        simp only [h6] at hu
        injection hu with hu
        injection hu with hu1 hu2
        refine ⟨i1, i2, i3, i4, i5, sp1, sp2, rem, (many0Newline i5).2, ts, ni,
          rfl, h2, h3, h4, h5, ?_, ?_⟩
        · rw [← hu1]
        · right
          refine ⟨hp, ?_⟩
          rw [← hu2, h6]
          rcases ni with ⟨ci, cp, si, sp, pr⟩
          simp only at hp ⊢
          cases cp with
          | zero => exact absurd rfl hp
          | succ n => rfl
    | none =>
        simp only [h6] at hu
        injection hu with hu
        injection hu with hu1 hu2
        refine ⟨i1, i2, i3, i4, i5, sp1, sp2, rem, (many0Newline i5).2, ts, ni,
          rfl, h2, h3, h4, h5, ?_, ?_⟩
        · rw [← hu1]
        · right
          refine ⟨hp, ?_⟩
          rw [← hu2, h6]
          rfl

/-! ## Claim theorems -/

/-- C1: the claim that a port digit run exceeding the unsigned 32-bit range
surfaces as a distinct parse error and never aborts the process fails on the
code: on the input `1.2.3.4:4294967296` the grammar of `parse_ip_port_pair`
matches, the digit run `4294967296` exceeds the 32-bit range, and the
`unwrap` on `port.parse::<u32>()` aborts the process (modelled `panic`)
instead of returning a parse error. -/
theorem claim_C1_port_overflow_aborts :
    parse_ip_port_pair (str "1.2.3.4:4294967296") = .panic := by decide

/-- C2: in every successfully parsed envelope the protocol tag stored in the
channel is populated and both it and the message type equal the single
classification of the client port — port zero is mqtt, any other port is
iec104. -/
theorem claim_C2_protocol_agreement (input rest : List Char) (m : IotMessage)
    (h : parse_log input = .ok (rest, some m)) :
    m.channel.protocol = some (classify m.channel.client_port) ∧
    m.message_type = some (classify m.channel.client_port) := by
  obtain ⟨i1, i2, i3, i4, i5, sp1, sp2, rem, nls, ts, ni, g1, g2, g3, g4, g5,
    g6, g7⟩ := parse_log_ok_inv input rest (some m) h
  have hpr := parse_network_info_protocol i2 i3 ni g3
  rcases g7 with ⟨hp, hm⟩ | ⟨hp, hm⟩
  · injection hm with hm
    subst hm
    exact ⟨hpr, rfl⟩
  · cases h6 : hexDecode rem with
    | none => rw [h6] at hm; exact Option.noConfusion hm
    | some bs =>
        rw [h6] at hm
        injection hm with hm
        subst hm
        exact ⟨hpr, rfl⟩

/-- Witness for C2 at a concrete mqtt line. -/
theorem claim_C2_protocol_agreement_witness :
    ({ channel := ⟨str "a", 0, str "b", 1, some (str "mqtt")⟩,
       message_type := some (str "mqtt"), message := [120],
       server_time := some 1714838421525 } : IotMessage).channel.protocol =
      some (classify 0) ∧
    ({ channel := ⟨str "a", 0, str "b", 1, some (str "mqtt")⟩,
       message_type := some (str "mqtt"), message := [120],
       server_time := some 1714838421525 } : IotMessage).message_type =
      some (classify 0) :=
  claim_C2_protocol_agreement (str "2024-05-05 00:00:21.525 [a:0#b:1] D:x") []
    ⟨⟨str "a", 0, str "b", 1, some (str "mqtt")⟩, some (str "mqtt"), [120],
      some 1714838421525⟩ (by decide)

/-- C4: the timestamp token `2024-05-05 00:00:21.525` parses to epoch
milliseconds 1714838421525, which is its zero-offset UTC conversion
1714867221525 shifted by exactly minus eight hours (28800000 milliseconds). -/
theorem claim_C4_timestamp_exact_value :
    parse_server_time (str "2024-05-05 00:00:21.525") =
      .ok ([], 1714838421525) ∧
    parseWithTimezoneUtc (str "2024-05-05 00:00:21.525") =
      some 1714867221525 ∧
    (1714838421525 : Int) = 1714867221525 - 8 * 3600 * 1000 := by decide

/-- C8: the line parser is deterministic — two invocations on the same input
line yield identical results. -/
theorem claim_C8_deterministic (input : List Char) :
    parse_log input = parse_log input := rfl

/-- C3: on a line whose grammar matches with a nonzero client port, a hex
decodable remainder decodes to the corresponding bytes in the envelope (for
example `6822ee` to `[0x68, 0x22, 0xee]`), while a failed hex decode still
yields a successful parse carrying no envelope — an outcome distinct from a
hard grammar failure. -/
theorem claim_C3_iec104_hex_handling
    (i0 i1 i2 i3 i4 i5 sp1 sp2 rem : List Char) (ts : Int) (ni : NetworkInfo)
    (h1 : parse_server_time i0 = .ok (i1, ts))
    (h2 : space1 i1 = .ok (i2, sp1))
    (h3 : parse_network_info i2 = .ok (i3, ni))
    (h4 : space1 i3 = .ok (i4, sp2))
    (h5 : parse_payload i4 = .ok (i5, rem))
    (hp : ni.client_port ≠ 0) :
    (∀ bs, hexDecode rem = some bs →
      parse_log i0 = .ok ((many0Newline i5).1,
        some ⟨⟨ni.client_ip, ni.client_port, ni.server_ip, ni.server_port,
          ni.protocol⟩, some (classify ni.client_port), bs, some ts⟩)) ∧
    (hexDecode rem = none →
      parse_log i0 = .ok ((many0Newline i5).1, none) ∧
      parse_log i0 ≠ .err) ∧
    hexDecode (str "6822ee") = some [0x68, 0x22, 0xee] := by
  have he := parse_log_eq i0 i1 i2 i3 i4 i5 sp1 sp2 rem ts ni h1 h2 h3 h4 h5
  rw [if_pos hp] at he
  refine ⟨?_, ?_, by decide⟩
  · intro bs h6
    rw [he, h6]
  · intro h6
    rw [he, h6]
    exact ⟨rfl, fun hh => PRes.noConfusion hh⟩

/-- Witness for C3 at a concrete iec104 line carrying the payload `6822ee`. -/
theorem claim_C3_iec104_hex_handling_witness :
    (∀ bs, hexDecode (str "6822ee") = some bs →
      parse_log (str "2024-05-05 23:59:58.846 [c:2#s:3] R:6822ee") =
        .ok ([], some ⟨⟨str "c", 2, str "s", 3, some (str "iec104")⟩,
          some (str "iec104"), bs, some 1714924798846⟩)) ∧
    (hexDecode (str "6822ee") = none →
      parse_log (str "2024-05-05 23:59:58.846 [c:2#s:3] R:6822ee") =
        .ok ([], none) ∧
      parse_log (str "2024-05-05 23:59:58.846 [c:2#s:3] R:6822ee") ≠
        .err) ∧
    hexDecode (str "6822ee") = some [0x68, 0x22, 0xee] :=
  claim_C3_iec104_hex_handling
    (str "2024-05-05 23:59:58.846 [c:2#s:3] R:6822ee")
    (str " [c:2#s:3] R:6822ee") (str "[c:2#s:3] R:6822ee") (str " R:6822ee")
    (str "R:6822ee") (str "") (str " ") (str " ") (str "6822ee")
    1714924798846 ⟨str "c", 2, str "s", 3, some (str "iec104")⟩
    (by decide) (by decide) (by decide) (by decide) (by decide) (by decide)

/-- C5: when the timestamp grammar matches but the calendar-to-epoch
conversion of the reassembled token fails, the timestamp parser succeeds with
the sentinel value 0 instead of propagating an error, so the line parse
proceeds. -/
theorem claim_C5_sentinel_zero
    (i0 i1 i2 i3 i4 i5 sp1 dot micro : List Char)
    (date time : List (List Char))
    (hd : sepList1Digit '-' i0 = .ok (i1, date))
    (hs : space1 i1 = .ok (i2, sp1))
    (ht : sepList1Digit ':' i2 = .ok (i3, time))
    (hdot : tagP (str ".") i3 = .ok (i4, dot))
    (hm : digit1 i4 = .ok (i5, micro))
    (hconv : parseWithTimezoneUtc ((date.intersperse (str "-")).flatten ++
      str " " ++ (time.intersperse (str ":")).flatten ++ str "." ++ micro) =
      none) :
    parse_server_time i0 = .ok (i5, 0) := by
  unfold parse_server_time
  simp only [hd, hs, ht, hdot, hm]
  simp only [str_as_unix_time, hconv]

/-- Witness for C5 at a timestamp token with month 99, whose conversion
fails. -/
theorem claim_C5_sentinel_zero_witness :
    parse_server_time (str "2024-99-05 00:00:21.525") = .ok ([], 0) :=
  claim_C5_sentinel_zero (str "2024-99-05 00:00:21.525")
    (str " 00:00:21.525") (str "00:00:21.525") (str ".525") (str "525") []
    (str " ") (str ".") (str "525")
    [str "2024", str "99", str "05"] [str "00", str "00", str "21"]
    (by decide) (by decide) (by decide) (by decide) (by decide) (by decide)

/-- C6: on a line whose grammar matches with client port zero, the envelope's
message is exactly the payload remainder after the `D:` or `R:` prefix,
encoded as bytes verbatim, and its message type is mqtt. -/
theorem claim_C6_mqtt_verbatim
    (i0 i1 i2 i3 i4 i5 sp1 sp2 rem : List Char) (ts : Int) (ni : NetworkInfo)
    (h1 : parse_server_time i0 = .ok (i1, ts))
    (h2 : space1 i1 = .ok (i2, sp1))
    (h3 : parse_network_info i2 = .ok (i3, ni))
    (h4 : space1 i3 = .ok (i4, sp2))
    (h5 : parse_payload i4 = .ok (i5, rem))
    (hp : ni.client_port = 0) :
    parse_log i0 = .ok ((many0Newline i5).1,
      some ⟨⟨ni.client_ip, ni.client_port, ni.server_ip, ni.server_port,
        ni.protocol⟩, some (str "mqtt"), strBytes rem, some ts⟩) := by
  have he := parse_log_eq i0 i1 i2 i3 i4 i5 sp1 sp2 rem ts ni h1 h2 h3 h4 h5
  rw [if_neg (by simp [hp])] at he
  rw [he, hp]
  rfl

/-- Witness for C6 at a concrete mqtt line with payload text `x`. -/
theorem claim_C6_mqtt_verbatim_witness :
    parse_log (str "2024-05-05 00:00:21.525 [a:0#b:1] D:x") =
      .ok ([], some ⟨⟨str "a", 0, str "b", 1, some (str "mqtt")⟩,
        some (str "mqtt"), strBytes (str "x"), some 1714838421525⟩) :=
  claim_C6_mqtt_verbatim (str "2024-05-05 00:00:21.525 [a:0#b:1] D:x")
    (str " [a:0#b:1] D:x") (str "[a:0#b:1] D:x") (str " D:x") (str "D:x")
    (str "") (str " ") (str " ") (str "x") 1714838421525
    ⟨str "a", 0, str "b", 1, some (str "mqtt")⟩
    (by decide) (by decide) (by decide) (by decide) (by decide) (by decide)

/-- C10: a line whose payload is exactly the `D:` or `R:` prefix followed by
the end of the line parses successfully into an envelope whose message is the
empty byte sequence, under both the mqtt case and the iec104 case. -/
theorem claim_C10_empty_payload
    (i0 i1 i2 i3 i4 i5 sp1 sp2 : List Char) (ts : Int) (ni : NetworkInfo)
    (h1 : parse_server_time i0 = .ok (i1, ts))
    (h2 : space1 i1 = .ok (i2, sp1))
    (h3 : parse_network_info i2 = .ok (i3, ni))
    (h4 : space1 i3 = .ok (i4, sp2))
    (h5 : parse_payload i4 = .ok (i5, [])) :
    parse_log i0 = .ok ((many0Newline i5).1,
      some ⟨⟨ni.client_ip, ni.client_port, ni.server_ip, ni.server_port,
        ni.protocol⟩, some (classify ni.client_port), [], some ts⟩) := by
  have he := parse_log_eq i0 i1 i2 i3 i4 i5 sp1 sp2 [] ts ni h1 h2 h3 h4 h5
  by_cases hp : ni.client_port = 0
  · rw [if_neg (by simp [hp])] at he
    rw [he]
    rfl
  · rw [if_pos hp] at he
    rw [he]
    rfl

/-- Witness for C10 at concrete empty-payload lines, one mqtt and one
iec104. -/
theorem claim_C10_empty_payload_witness :
    (parse_log (str "2024-05-05 00:00:21.525 [a:0#b:1] D:") =
      .ok ([], some ⟨⟨str "a", 0, str "b", 1, some (str "mqtt")⟩,
        some (str "mqtt"), [], some 1714838421525⟩)) ∧
    (parse_log (str "2024-05-05 00:00:21.525 [a:7#b:1] R:") =
      .ok ([], some ⟨⟨str "a", 7, str "b", 1, some (str "iec104")⟩,
        some (str "iec104"), [], some 1714838421525⟩)) :=
  ⟨claim_C10_empty_payload (str "2024-05-05 00:00:21.525 [a:0#b:1] D:")
    (str " [a:0#b:1] D:") (str "[a:0#b:1] D:") (str " D:") (str "D:")
    (str "") (str " ") (str " ") 1714838421525
    ⟨str "a", 0, str "b", 1, some (str "mqtt")⟩
    (by decide) (by decide) (by decide) (by decide) (by decide),
   claim_C10_empty_payload (str "2024-05-05 00:00:21.525 [a:7#b:1] R:")
    (str " [a:7#b:1] R:") (str "[a:7#b:1] R:") (str " R:") (str "R:")
    (str "") (str " ") (str " ") 1714838421525
    ⟨str "a", 7, str "b", 1, some (str "iec104")⟩
    (by decide) (by decide) (by decide) (by decide) (by decide)⟩

/-- C7 counterexample: the claim requires exactly three dash-separated date
groups and three colon-separated time groups, with every other input rejected
as a parse failure; yet the line `1 2:3.4 [a:0#b:1] D:x`, whose timestamp has
one date group and two time groups, is accepted by `parse_log` and produces
an envelope. The separated lists in the grammar accept one or more groups,
not exactly three. -/
theorem claim_C7_counterexample :
    parse_log (str "1 2:3.4 [a:0#b:1] D:x") =
      .ok ([], some ⟨⟨str "a", 0, str "b", 1, some (str "mqtt")⟩,
        some (str "mqtt"), [120], some 0⟩) := by decide

/-- C7 (amended): every successfully parsed line decomposes, in the claimed
exact fixed order with no stage optional, into one-or-more dash-separated
digit runs, whitespace, one-or-more colon-separated digit runs, a dot, a
digit run, one-or-more whitespace, the bracketed network tuple, one-or-more
whitespace, the `D:` or `R:` payload, and zero-or-more trailing newlines —
with one-or-more date and time groups in place of the claim's exactly
three. -/
theorem claim_C7_fixed_order_amended (input rest : List Char)
    (out : Option IotMessage) (h : parse_log input = .ok (rest, out)) :
    LineShape input rest := by
  obtain ⟨i1, i2, i3, i4, i5, sp1, sp2, rem, nls, ts, ni, g1, g2, g3, g4, g5,
    g6, _⟩ := parse_log_ok_inv input rest out h
  obtain ⟨dgs, tgs, wsA, frac, hdne, hddig, htne, htdig, hwne, hwmem, hfne,
    hfdig, _, hieq⟩ := parse_server_time_inv input i1 ts g1
  obtain ⟨hwBne, hwBmem, hi1⟩ := space1_ok i1 i2 sp1 g2
  obtain ⟨chost, cpd, shost, spd, hcne, hccol, hcpdne, hcpddig, hsne, hscol,
    hspdne, hspddig, _, _, _, hi2⟩ := parse_iot_log_inv i2 i3 ni g3
  obtain ⟨hwCne, hwCmem, hi3⟩ := space1_ok i3 i4 sp2 g4
  obtain ⟨pfx, hpfx, hrmem, hi4⟩ := parse_payload_inv i4 i5 rem g5
  obtain ⟨hi5, hnl⟩ := many0Newline_inv i5 rest nls g6
  refine ⟨dgs, tgs, wsA, sp1, sp2, frac, chost, cpd, shost, spd, pfx, rem,
    nls, hdne, hddig, htne, htdig, hwne, hwmem, hwBne, hwBmem, hwCne, hwCmem,
    hfne, hfdig, hcne, hccol, hcpdne, hcpddig, hsne, hscol, hspdne, hspddig,
    hpfx, hrmem, hnl, ?_⟩
  rw [hieq, hi1, hi2, hi3, hi4, hi5]
  simp [List.append_assoc]

/-- Witness for the amended C7 at a concrete well-formed line. -/
theorem claim_C7_fixed_order_amended_witness :
    LineShape (str "2024-05-05 00:00:21.525 [a:0#b:1] D:x") [] :=
  claim_C7_fixed_order_amended (str "2024-05-05 00:00:21.525 [a:0#b:1] D:x")
    [] (some ⟨⟨str "a", 0, str "b", 1, some (str "mqtt")⟩, some (str "mqtt"),
      [120], some 1714838421525⟩) (by decide)

/-- C9: the host scanner fails when a colon immediately begins the host
position and when no colon follows at all, and consequently every parsed
envelope carries nonempty client and server host strings. -/
theorem claim_C9_nonempty_hosts :
    (∀ rest, parse_ip_or_domain (':' :: rest) = .err) ∧
    (∀ i, (∀ c ∈ i, c ≠ ':') → parse_ip_or_domain i = .err) ∧
    (∀ i r m, parse_log i = .ok (r, some m) →
      m.channel.client_ip ≠ [] ∧ m.channel.server_ip ≠ []) := by
  refine ⟨fun rest => rfl, ?_, ?_⟩
  · intro i hcol
    unfold parse_ip_or_domain takeUntil1Colon
    rw [splitAtColon_none i hcol]
  · intro i r m h
    obtain ⟨i1, i2, i3, i4, i5, sp1, sp2, rem, nls, ts, ni, g1, g2, g3, g4,
      g5, g6, g7⟩ := parse_log_ok_inv i r (some m) h
    obtain ⟨chost, cpd, shost, spd, hcne, _, _, _, hsne, _, _, _, _, _, hni,
      _⟩ := parse_iot_log_inv i2 i3 ni g3
    have hc : m.channel.client_ip = ni.client_ip ∧
        m.channel.server_ip = ni.server_ip := by
      rcases g7 with ⟨hp, hm⟩ | ⟨hp, hm⟩
      · injection hm with hm
        subst hm
        exact ⟨rfl, rfl⟩
      · cases h6 : hexDecode rem with
        | none => rw [h6] at hm; exact Option.noConfusion hm
        | some bs =>
            rw [h6] at hm
            injection hm with hm
            subst hm
            exact ⟨rfl, rfl⟩
    rw [hc.1, hc.2, hni]
    exact ⟨hcne, hsne⟩

/-- Witness for C9: a colon-led pair, a colon-free input, and a concrete
parsed envelope with nonempty hosts. -/
theorem claim_C9_nonempty_hosts_witness :
    parse_ip_or_domain (str ":80") = .err ∧
    parse_ip_or_domain (str "nocolon") = .err ∧
    ({ channel := ⟨str "a", 0, str "b", 1, some (str "mqtt")⟩,
       message_type := some (str "mqtt"), message := [120],
       server_time := some 1714838421525 } : IotMessage).channel.client_ip ≠
      [] ∧
    ({ channel := ⟨str "a", 0, str "b", 1, some (str "mqtt")⟩,
       message_type := some (str "mqtt"), message := [120],
       server_time := some 1714838421525 } : IotMessage).channel.server_ip ≠
      [] :=
  ⟨claim_C9_nonempty_hosts.1 (str "80"),
   claim_C9_nonempty_hosts.2.1 (str "nocolon") (by decide),
   (claim_C9_nonempty_hosts.2.2 (str "2024-05-05 00:00:21.525 [a:0#b:1] D:x")
     [] ⟨⟨str "a", 0, str "b", 1, some (str "mqtt")⟩, some (str "mqtt"),
       [120], some 1714838421525⟩ (by decide)).1,
   (claim_C9_nonempty_hosts.2.2 (str "2024-05-05 00:00:21.525 [a:0#b:1] D:x")
     [] ⟨⟨str "a", 0, str "b", 1, some (str "mqtt")⟩, some (str "mqtt"),
       [120], some 1714838421525⟩ (by decide)).2⟩

end IotLog
